import Mathlib

/-
Verification development for the abstract-query compiler and streaming
nested-relation execution engine of this repository.

The development shallowly embeds the relevant TypeScript functions:

* `DataSql.convertFilter` — src/unnamed/part_004, `convertFilter` (lines 13-45),
  together with the abstract SQL types of the same file (lines 200-287).
* `PostgresDriver` — src/packages/data-driver-postgres/src/index.ts,
  `getDataFromSource` (lines 50-64) and `query` (lines 94-104).
* `DataDriver.makeSubQueriesAndMergeWithRoot` — the merge engine; its
  implementation file is not in the source tree (only its unit test,
  src/unnamed/part_004 lines 46-199), so it is modelled from the spec.
* `LegacySql` — src/unnamed/part_009, `applyFilter` with its inner
  `addJoins` / `addWhereClauses` / `getWhereColumn` helpers.
* `RunAstM.o2mBatchLoop` — src/unnamed/part_007, the one-to-many batch
  loop inside `runAst` (lines 78-103).
-/

set_option autoImplicit false

namespace DataSql

/-- A literal comparison value, `string | boolean | number` in the source. -/
inductive SqlValue where
  | str (s : String)
  | int (n : Int)
  | bool (b : Bool)
  deriving DecidableEq, Repr

/-- Target node of an abstract filter condition (`filter.target`).
`primitive` carries the column name; `fn` stands for the non-primitive
target kinds of the abstract query (function applications etc.). -/
inductive FilterTarget where
  | primitive (field : String)
  | fn (fn : String) (field : String)
  deriving DecidableEq, Repr

/-- The `compareTo` node of an abstract filter condition: either a value
node carrying literal values, or a nested-query node. -/
inductive FilterCompareTo where
  | value (values : List SqlValue)
  | nestedQuery
  deriving DecidableEq, Repr

/-- Abstract query filter node (`AbstractQueryFilterNode`): a single
condition, or a logical combinator with child nodes. -/
inductive AbstractQueryFilterNode where
  | condition (target : FilterTarget) (operation : String)
      (compareTo : FilterCompareTo) (negate : Bool)
  | logical (operator : String) (childNodes : List AbstractQueryFilterNode)

/-- A primitive select expression, `SqlStatementSelectPrimitive`. -/
structure SqlSelectPrimitive where
  table : String
  column : String
  deriving DecidableEq, Repr

/-- The `compareTo` of a compiled SQL condition: only parameter indexes,
`{ type: 'value', parameterIndexes }` in the source. -/
structure SqlCompareToParams where
  parameterIndexes : List Nat
  deriving DecidableEq, Repr

/-- A compiled SQL condition node (`AbstractSqlQueryNodeCondition`). -/
structure SqlCondition where
  negate : Bool
  operation : String
  target : SqlSelectPrimitive
  compareTo : SqlCompareToParams
  deriving DecidableEq, Repr

/-- Return value of `convertFilter`: the `where` tree plus the values that
were moved into the parameter array
(`Required<Pick<AbstractSqlQuery, 'where' | 'parameters'>>`). -/
structure ConvertedFilter where
  whereClause : SqlCondition
  parameters : List SqlValue
  deriving DecidableEq, Repr

/-- Embedding of `convertFilter` (src/unnamed/part_004 lines 13-45).

The source signature receives a parameter-index `Generator`; its body uses
the next index under the name `firstParameterIndex` (the name the doc
comment of the function documents), which we pass explicitly.  A thrown
`Error` is modelled as `Except.error`.  On a `logical` node the source
dereferences `filter.target.type` with `filter.target` being `undefined`,
which throws a `TypeError` synchronously; this is the first error branch. -/
def convertFilter (filter : AbstractQueryFilterNode) (collection : String)
    (firstParameterIndex : Nat) : Except String ConvertedFilter :=
  match filter with
  | .logical _ _ =>
      .error "TypeError: Cannot read properties of undefined (reading 'type')"
  | .condition target operation compareTo _ =>
      match target, compareTo with
      | .primitive field, .value values =>
          if operation = "intersects" ∨ operation = "intersects_bounding_box" then
            .error "The intersects operators are not yet supported."
          else
            .ok
              { whereClause :=
                  { negate := false
                    operation := operation
                    target := { table := collection, column := field }
                    compareTo := { parameterIndexes := [firstParameterIndex] } }
                parameters := values }
      | _, _ => .error "Only primitives are currently supported."

/-- The inputs `convertFilter` rejects: a logical combinator (unsupported by
this concrete compiler), a non-primitive target, a non-value `compareTo`,
or one of the intersects operators. -/
def unsupportedFilter : AbstractQueryFilterNode → Bool
  | .logical _ _ => true
  | .condition target operation compareTo _ =>
      (match target with | .primitive _ => false | _ => true) ||
      (match compareTo with | .value _ => false | _ => true) ||
      operation == "intersects" || operation == "intersects_bounding_box"

end DataSql

namespace PostgresDriver

/-- Events of the Node.js row stream that are relevant to connection
handling. -/
inductive StreamEvent where
  | streamEnd
  | streamError
  | streamClose
  deriving DecidableEq, Repr

/-- The events for which `getDataFromSource` registers a
`poolClient.release()` handler: `stream.on('end', …)` and
`stream.on('error', …)` (src/packages/data-driver-postgres/src/index.ts
lines 58-59).  No handler is registered for `'close'`. -/
def releaseEvents : List StreamEvent := [.streamEnd, .streamError]

/-- The ways a row cursor opened by the driver can exit. -/
inductive CursorExit where
  | endOfData
  | queryError
  | earlyClose
  deriving DecidableEq, Repr

/-- Node.js stream semantics for the events emitted on each exit path:
end-of-data emits `'end'` (then `'close'`), a failure emits `'error'`
(then `'close'`), and an early destroy by the consumer — cancelling the
web stream obtained from `Readable.toWeb` — emits only `'close'`. -/
def emittedEvents : CursorExit → List StreamEvent
  | .endOfData => [.streamEnd, .streamClose]
  | .queryError => [.streamError, .streamClose]
  | .earlyClose => [.streamClose]

/-- Whether the pool connection acquired by `getDataFromSource` is released
on a given cursor exit: some emitted event must have a registered release
handler. -/
def connectionReleased (e : CursorExit) : Bool :=
  (emittedEvents e).any (fun ev => releaseEvents.contains ev)

end PostgresDriver

namespace DataDriver

/-- A value stored in a result row: a scalar column value, SQL null, or —
after merging — an ordered sequence of nested child rows. -/
inductive RowVal where
  | scalar (s : String)
  | null
  | seq (rows : List (List (String × RowVal)))

/-- A result row: an ordered association of field names to values, as
delivered by the expanded row stream. -/
abbrev Row := List (String × RowVal)

/-- A nested-many relation descriptor, `AbstractSqlNestedMany`: the alias
under which the children are attached, the key fields on both sides, and
the child collection.  The descriptor's `queryGenerator` closure is
represented by the `fetch` argument of the merge engine below. -/
structure AbstractSqlNestedMany where
  /-- The source field is named `alias` (a Lean command keyword). -/
  aliasName : String
  internalIdentifierFields : List String
  externalKeyFields : List String
  collection : String

/-- Modelled from the spec: attaching the children of every nested-many
descriptor onto one parent row.  The implementation of the merge engine
`makeSubQueriesAndMergeWithRoot` is not in the source tree (only its unit
test, src/unnamed/part_004 lines 46-199); per spec §4.5 the engine invokes
the descriptor's query generator with the parent's key values, runs the
sub-query, and attaches the resulting child rows onto the parent under the
descriptor's alias, an empty fetch yielding an empty sequence.  `fetch`
stands for the sub-query round trip for one descriptor and one parent row. -/
def attachNested (ds : List AbstractSqlNestedMany)
    (fetch : AbstractSqlNestedMany → Row → List Row) (r : Row) : Row :=
  r ++ ds.map (fun d => (d.aliasName, RowVal.seq (fetch d r)))

/-- Modelled from the spec: the merge engine.  It consumes the root row
stream and emits one merged row per root row, in input order (spec §4.5:
"Parent row order in the output stream must equal parent row order in the
input stream"). -/
def makeSubQueriesAndMergeWithRoot (rootRows : List Row)
    (ds : List AbstractSqlNestedMany)
    (fetch : AbstractSqlNestedMany → Row → List Row) : List Row :=
  rootRows.map (attachNested ds fetch)

/-- Result of one driver `query` call: the emitted row stream plus whether
the merge engine was invoked. -/
structure QueryRun where
  rows : List Row
  mergeInvoked : Bool

/-- Embedding of `DataDriverPostgres.query`
(src/packages/data-driver-postgres/src/index.ts lines 94-104): the root
statement is executed first and yields `rootStream`; when the compiled
query has no nested-many descriptors the root stream is returned as is,
otherwise the merge engine is invoked on it. -/
def query (nestedManys : List AbstractSqlNestedMany) (rootStream : List Row)
    (fetch : AbstractSqlNestedMany → Row → List Row) : QueryRun :=
  if nestedManys.length = 0 then
    { rows := rootStream, mergeInvoked := false }
  else
    { rows := makeSubQueriesAndMergeWithRoot rootStream nestedManys fetch
      mergeInvoked := true }

end DataDriver

namespace LegacySql

/-- A relation row of the schema (`Relation` in the source): the many side
(`many_collection`.`many_field` holds the foreign key) and the one side
(`one_collection` with primary key `one_primary`; `one_field` is the o2m
alias field on the one side). -/
structure Relation where
  many_collection : String
  many_field : String
  one_collection : String
  one_field : String
  one_primary : String
  deriving DecidableEq, Repr

mutual
/-- A filter object, `Filter` in the source: a JSON object whose entries
are iterated in key order by `applyFilter`. -/
inductive Filter where
  | node (entries : List FilterEntry)

/-- One entry of a filter object: a `_and`/`_or` key with its sub-filters,
or a field condition.  `cond field rest op value` stands for the nested
object chain whose `getFilterPath` is `field :: rest` and whose
`getOperation` yields `(op, value)`. -/
inductive FilterEntry where
  | logical (isOr : Bool) (children : List Filter)
  | cond (field : String) (rest : List String) (op : String) (value : String)
end

/-- Whether a sub-filter is the empty object `{}` (full permissions). -/
def isEmptyFilter : Filter → Bool
  | .node [] => true
  | .node (_ :: _) => false

/-- The `_or` short-circuit of the source (part_009 lines 69-70 and
129-130): an `_or` array containing an empty object matches everything,
so the whole entry is skipped. -/
def hasEmptyChild (children : List Filter) : Bool :=
  children.any isEmptyFilter

/-- Modelling of `nanoid(8)` (part_009 line 99): a freshly generated
random identifier per call, represented as an injective counter-indexed
supply of names. -/
def nanoid (counter : Nat) : String := "nanoid" ++ toString counter

/-- One `leftJoin` clause added by `addJoin`:
`leftJoin({[alias]: one_collection}, parentAlias||parentCollection.many_field, alias.one_primary)`. -/
structure JoinClause where
  joinAlias : String
  table : String
  onLeft : String
  onRight : String
  deriving DecidableEq, Repr

/-- State threaded through the join phase: the emitted join clauses, the
`aliasMap` (keyed in the source by `pathParts.join('+')`, represented here
by the segment list itself), and the nanoid supply position. -/
structure JoinState where
  joins : List JoinClause
  aliasMap : List (List String × String)
  counter : Nat
  deriving DecidableEq, Repr

/-- The relation search of `addJoin.followRelation` (part_009 lines 93-95):
only many-to-one relations are considered when adding joins. -/
def findM2O (rels : List Relation) (parentCollection field : String) : Option Relation :=
  rels.find? fun rel => rel.many_collection == parentCollection && rel.many_field == field

/-- The o2m relation search of `addWhereClauses` (part_009 lines 148-150). -/
def findO2M (rels : List Relation) (collection field : String) : Option Relation :=
  rels.find? fun rel => rel.one_collection == collection && rel.one_field == field

/-- The relation search of `getWhereColumn.followRelation` (lines 263-268):
either orientation matches. -/
def findAnyRelation (rels : List Relation) (parentCollection field : String) : Option Relation :=
  rels.find? fun rel =>
    (rel.many_collection == parentCollection && rel.many_field == field) ||
    (rel.one_collection == parentCollection && rel.one_field == field)

/-- Embedding of `addJoin.followRelation` (part_009 lines 91-115): walk the
filter path, and for every step that matches a many-to-one relation emit a
left join under a fresh alias and record it in the alias map. -/
def followRelationJoin (rels : List Relation) :
    List String → String → Option String → JoinState → JoinState
  | [], _, _, st => st
  | p0 :: rest, parentCollection, parentAlias, st =>
    match findM2O rels parentCollection p0 with
    | none => st
    | some rel =>
      let a := nanoid st.counter
      let st' : JoinState :=
        { joins := st.joins ++
            [{ joinAlias := a, table := rel.one_collection,
               onLeft := (parentAlias.getD parentCollection) ++ "." ++ rel.many_field,
               onRight := a ++ "." ++ rel.one_primary }]
          aliasMap := (p0 :: rest, a) :: st.aliasMap
          counter := st.counter + 1 }
      followRelationJoin rels rest rel.one_collection (some a) st'

mutual
/-- Embedding of `addJoins` (part_009 lines 64-117) over a whole filter. -/
def addJoinsFilter (rels : List Relation) (collection : String) :
    Filter → JoinState → JoinState
  | .node entries, st => addJoinsEntries rels collection entries st

def addJoinsEntries (rels : List Relation) (collection : String) :
    List FilterEntry → JoinState → JoinState
  | [], st => st
  | e :: rest, st =>
      addJoinsEntries rels collection rest (addJoinsEntry rels collection e st)

def addJoinsEntry (rels : List Relation) (collection : String) :
    FilterEntry → JoinState → JoinState
  | .logical isOr children, st =>
      if isOr && hasEmptyChild children then st
      else addJoinsChildren rels collection children st
  | .cond p0 rest _ _, st =>
      if rest.length > 0 then followRelationJoin rels (p0 :: rest) collection none st
      else st

def addJoinsChildren (rels : List Relation) (collection : String) :
    List Filter → JoinState → JoinState
  | [], st => st
  | c :: cs, st => addJoinsChildren rels collection cs (addJoinsFilter rels collection c st)
end

/-- A where clause as accumulated on the knex query builder: a simple
comparison (the value is bound as a statement parameter), a grouped
sub-builder (`dbQuery[logical].where(callback)`), or a `whereIn` against an
o2m sub-query (part_009 lines 151-159).  The sub-query is itself compiled
through `applyQuery` → `applyFilter` (line 157), so the `whereInSub`
clause carries the sub-query's own join clauses and where clauses.  The
leading connective records through which of `and`/`or` the clause was
attached.  The operator-specific builder calls of `applyFilterToQuery`
(lines 169-251) all record the same `(column, operator, value)` data,
which is what `leaf` carries. -/
inductive WhereClause where
  | leaf (isOr : Bool) (column : String) (op : String) (value : String)
  | group (isOr : Bool) (children : List WhereClause)
  | whereInSub (isOr : Bool) (column : String) (subField : String)
      (subCollection : String) (subJoins : List JoinClause)
      (subClauses : List WhereClause)

/-- Embedding of `getWhereColumn.followRelation` (part_009 lines 253-287):
walk the path, resolving each segment through the relations; the final
column is `alias || parent` dot the last segment, where the alias is the
one the join phase stored for the remaining path. -/
def followWhereColumn (rels : List Relation) (aliasMap : List (List String × String)) :
    List String → String → String → String
  | [], _, acc => acc
  | p0 :: rest, parentCollection, acc =>
    match findAnyRelation rels parentCollection p0 with
    | none => acc
    | some rel =>
      let isM2O := rel.many_collection == parentCollection && rel.many_field == p0
      let a? := aliasMap.lookup (p0 :: rest)
      let parent := if isM2O then rel.one_collection else rel.many_collection
      let acc' :=
        match rest with
        | [f] => (a?.getD parent) ++ "." ++ f
        | _ => acc
      followWhereColumn rels aliasMap rest parent acc'

/-- Embedding of `getWhereColumn` (part_009 lines 253-261). -/
def getWhereColumn (rels : List Relation) (aliasMap : List (List String × String))
    (path : List String) (collection : String) : String :=
  followWhereColumn rels aliasMap path collection ""

/-- Embedding of the condition branch of `addWhereClauses` (part_009 lines
142-166), including the o2m sub-query recursion.  A condition entry whose
path has more than one segment and whose head matches an o2m relation is
compiled to `whereIn(pk, subQuery)` where the sub-query is built by the
recursive `applyQuery` → `applyFilter` call of line 157 on the filter
object below the head key — for a chain condition that object is again a
single chain condition on the remaining path, so the recursion is on the
path.  The sub-query compilation runs its own join phase
(`addJoinsFilter`, with a fresh alias map, drawing aliases from the shared
nanoid stream) and its own where phase, both over the relation's many-side
collection; both results are stored on the `whereInSub` clause.  The
nanoid position is threaded in and out. -/
def condClause (rels : List Relation) (aliasMap : List (List String × String))
    (collection : String) (isOr : Bool) :
    String → List String → String → String → Nat → List WhereClause × Nat
  | p0, [], op, value, ctr => ([.leaf isOr (collection ++ "." ++ p0) op value], ctr)
  | p0, r0 :: rest, op, value, ctr =>
      match findO2M rels collection p0 with
      | some rel =>
          let subSt := addJoinsFilter rels rel.many_collection
            (.node [.cond r0 rest op value])
            { joins := [], aliasMap := [], counter := ctr }
          let sub := condClause rels subSt.aliasMap rel.many_collection false
            r0 rest op value subSt.counter
          ([.whereInSub isOr
              (collection ++ "." ++ (if rel.one_primary.isEmpty then "id" else rel.one_primary))
              rel.many_field rel.many_collection subSt.joins sub.1], sub.2)
      | none =>
          ([.leaf isOr (getWhereColumn rels aliasMap (p0 :: r0 :: rest) collection) op value],
            ctr)

mutual
/-- Embedding of `addWhereClauses` (part_009 lines 119-167) over a whole
filter, emitting the clauses attached to the builder in order and
threading the nanoid position (consumed by o2m sub-query join phases). -/
def addWhereFilter (rels : List Relation) (aliasMap : List (List String × String))
    (collection : String) (isOr : Bool) : Filter → Nat → List WhereClause × Nat
  | .node entries, ctr => addWhereEntries rels aliasMap collection isOr entries ctr

def addWhereEntries (rels : List Relation) (aliasMap : List (List String × String))
    (collection : String) (isOr : Bool) :
    List FilterEntry → Nat → List WhereClause × Nat
  | [], ctr => ([], ctr)
  | e :: rest, ctr =>
      let head := addWhereEntry rels aliasMap collection isOr e ctr
      let tail := addWhereEntries rels aliasMap collection isOr rest head.2
      (head.1 ++ tail.1, tail.2)

def addWhereEntry (rels : List Relation) (aliasMap : List (List String × String))
    (collection : String) (isOr : Bool) : FilterEntry → Nat → List WhereClause × Nat
  | .logical isOrKey children, ctr =>
      if isOrKey && hasEmptyChild children then ([], ctr)
      else
        let sub := addWhereChildren rels aliasMap collection isOrKey children ctr
        ([.group isOr sub.1], sub.2)
  | .cond p0 rest op value, ctr =>
      condClause rels aliasMap collection isOr p0 rest op value ctr

def addWhereChildren (rels : List Relation) (aliasMap : List (List String × String))
    (collection : String) (isOr : Bool) : List Filter → Nat → List WhereClause × Nat
  | [], ctr => ([], ctr)
  | c :: cs, ctr =>
      let head := addWhereFilter rels aliasMap collection isOr c ctr
      let tail := addWhereChildren rels aliasMap collection isOr cs head.2
      (head.1 ++ tail.1, tail.2)
end

/-- The compiled output of `applyFilter`: the join clauses and the where
clauses attached to the knex builder. -/
structure CompiledFilter where
  joins : List JoinClause
  whereClauses : List WhereClause

/-- Embedding of `applyFilter` (part_009 lines 50-62): the join phase runs
first, then the where phase reads the alias map the join phase built.  The
nanoid supply position is threaded in and out of both phases, so that
compiling a second query continues the same random-identifier stream. -/
def applyFilter (rels : List Relation) (collection : String) (f : Filter)
    (counter : Nat) : CompiledFilter × Nat :=
  let st := addJoinsFilter rels collection f
    { joins := [], aliasMap := [], counter := counter }
  let whereRes := addWhereFilter rels st.aliasMap collection false f st.counter
  ({ joins := st.joins, whereClauses := whereRes.1 }, whereRes.2)

/-- Rendering of the connective through which a clause was attached. -/
def connWord (isOr : Bool) : String := if isOr then " or" else " and"

/-- Rendering of one join clause into the statement text: the generated
alias appears literally in the SQL knex emits. -/
def renderJoin (j : JoinClause) : String :=
  " left join " ++ j.table ++ " as " ++ j.joinAlias ++ " on " ++
    j.onLeft ++ " = " ++ j.onRight

mutual
/-- Rendering of one where clause the way knex emits it: compare values
become `?` placeholders (knex binds them as parameters), a grouping whose
body is empty is dropped entirely, and a `whereIn` renders its full
sub-query — the sub-query's joins (with their generated aliases) and where
clauses appear literally in the statement text. -/
def renderClause : WhereClause → String
  | .leaf o c op _ => connWord o ++ " " ++ c ++ " " ++ op ++ " ?"
  | .group o cs =>
      let body := renderClauses cs
      if body = "" then "" else connWord o ++ " (" ++ body ++ ")"
  | .whereInSub o c f sub subJoins subClauses =>
      connWord o ++ " " ++ c ++ " in (select " ++ f ++ " from " ++ sub ++
        (subJoins.map renderJoin).foldl (· ++ ·) "" ++
        (let w := renderClauses subClauses
         if w = "" then "" else " where" ++ w) ++ ")"

def renderClauses : List WhereClause → String
  | [] => ""
  | c :: rest => renderClause c ++ renderClauses rest
end

/-- Rendering of a compiled filter into statement text. -/
def renderStatement (c : CompiledFilter) : String :=
  (c.joins.map renderJoin).foldl (· ++ ·) "" ++
    (let w := renderClauses c.whereClauses
     if w = "" then "" else " where" ++ w)

mutual
/-- The bound parameter values of one where clause, in emission order; a
`whereIn` contributes the bound values of its compiled sub-query. -/
def clauseParams : WhereClause → List String
  | .leaf _ _ _ v => [v]
  | .group _ cs => clausesParams cs
  | .whereInSub _ _ _ _ _ subClauses => clausesParams subClauses

def clausesParams : List WhereClause → List String
  | [] => []
  | c :: rest => clauseParams c ++ clausesParams rest
end

/-- The connective of a clause. -/
def clauseConnective : WhereClause → Bool
  | .leaf o _ _ _ => o
  | .group o _ => o
  | .whereInSub o _ _ _ _ _ => o

/-- Combining an accumulated optional predicate value with the next
clause's value: an empty clause (`none`, a dropped group) contributes
nothing; otherwise the clause's connective applies. -/
def combineOpt (acc : Option Bool) (isOr : Bool) (v : Option Bool) : Option Bool :=
  match v with
  | none => acc
  | some b =>
      match acc with
      | none => some b
      | some a => some (if isOr then a || b else a && b)

mutual
/-- Evaluation of one where clause against a row, with `ev` deciding a
simple comparison `ev column op value` and `evIn` deciding a `whereIn`
sub-query membership.  A group with no effective content evaluates to
`none`: it imposes no restriction. -/
def evalClause (ev evIn : String → String → String → Bool) :
    WhereClause → Option Bool
  | .leaf _ c op v => some (ev c op v)
  | .group _ cs => evalClausesGo ev evIn none cs
  | .whereInSub _ c f sub _ _ => some (evIn c f sub)

def evalClausesGo (ev evIn : String → String → String → Bool)
    (acc : Option Bool) : List WhereClause → Option Bool
  | [] => acc
  | c :: rest =>
      evalClausesGo ev evIn
        (combineOpt acc (clauseConnective c) (evalClause ev evIn c)) rest
end

/-- The predicate a clause list denotes, `none` meaning "no restriction". -/
def evalWhere (ev evIn : String → String → String → Bool)
    (cs : List WhereClause) : Option Bool :=
  evalClausesGo ev evIn none cs

/-- Whether a row passes the compiled restriction: a statement without a
where clause returns every row. -/
def rowPasses (ev evIn : String → String → String → Bool)
    (cs : List WhereClause) : Bool :=
  (evalWhere ev evIn cs).getD true

/-- The shape of every join `applyFilter` can emit: the joined table is the
one-side collection of some schema relation, joined on that relation's
foreign-key field and one-side primary key — the many-to-one join shape. -/
def m2oJoinShape (rels : List Relation) (j : JoinClause) : Prop :=
  ∃ rel ∈ rels, ∃ parentName,
    j.table = rel.one_collection ∧
    j.onLeft = parentName ++ "." ++ rel.many_field ∧
    j.onRight = j.joinAlias ++ "." ++ rel.one_primary

/-- The number of joins the join phase adds while following one path
(a pure function of the relations and the path, independent of the nanoid
position and of previously accumulated state). -/
def followCount (rels : List Relation) : List String → String → Nat
  | [], _ => 0
  | p0 :: rest, parentCollection =>
    match findM2O rels parentCollection p0 with
    | none => 0
    | some rel => 1 + followCount rels rest rel.one_collection

mutual
/-- The number of joins the join phase adds for a filter. -/
def extraJoinsF (rels : List Relation) (collection : String) : Filter → Nat
  | .node entries => extraJoinsEntries rels collection entries

def extraJoinsEntries (rels : List Relation) (collection : String) :
    List FilterEntry → Nat
  | [] => 0
  | e :: rest => extraJoinsEntry rels collection e + extraJoinsEntries rels collection rest

def extraJoinsEntry (rels : List Relation) (collection : String) : FilterEntry → Nat
  | .logical isOr children =>
      if isOr && hasEmptyChild children then 0
      else extraJoinsChildren rels collection children
  | .cond p0 rest _ _ =>
      if rest.length > 0 then followCount rels (p0 :: rest) collection else 0

def extraJoinsChildren (rels : List Relation) (collection : String) :
    List Filter → Nat
  | [] => 0
  | c :: cs => extraJoinsF rels collection c + extraJoinsChildren rels collection cs
end

/-- The number of joins the where phase's o2m sub-query compilations add
while compiling one condition (a pure function of the relations, the
collection and the condition path — independent of the nanoid position and
the alias map). -/
def condExtra (rels : List Relation) : String → String → List String → Nat
  | _, _, [] => 0
  | collection, p0, r0 :: rest =>
      match findO2M rels collection p0 with
      | some rel =>
          (if rest.length > 0 then followCount rels (r0 :: rest) rel.many_collection else 0) +
            condExtra rels rel.many_collection r0 rest
      | none => 0

mutual
/-- The number of joins the where phase adds (inside o2m sub-queries) for
a whole filter. -/
def extraWhereF (rels : List Relation) (collection : String) : Filter → Nat
  | .node entries => extraWhereEntries rels collection entries

def extraWhereEntries (rels : List Relation) (collection : String) :
    List FilterEntry → Nat
  | [] => 0
  | e :: rest => extraWhereEntry rels collection e + extraWhereEntries rels collection rest

def extraWhereEntry (rels : List Relation) (collection : String) : FilterEntry → Nat
  | .logical isOr children =>
      if isOr && hasEmptyChild children then 0
      else extraWhereChildren rels collection children
  | .cond p0 rest _ _ => condExtra rels collection p0 rest

def extraWhereChildren (rels : List Relation) (collection : String) :
    List Filter → Nat
  | [] => 0
  | c :: cs => extraWhereF rels collection c + extraWhereChildren rels collection cs
end

/-- Compiling the same filter twice in sequence, the second compilation
continuing the nanoid stream where the first left it. -/
def compileTwice (rels : List Relation) (collection : String) (f : Filter) :
    CompiledFilter × CompiledFilter :=
  let r1 := applyFilter rels collection f 0
  let r2 := applyFilter rels collection f r1.2
  (r1.1, r2.1)

end LegacySql

/-- The concrete filter condition used by the C1 witness. -/
def exIdFilter : DataSql.AbstractQueryFilterNode :=
  .condition (.primitive "id") "eq" (.value [.int 5]) false

/-- The result `convertFilter` produces for `exIdFilter`. -/
def exIdConverted : DataSql.ConvertedFilter :=
  { whereClause :=
      { negate := false, operation := "eq",
        target := { table := "articles", column := "id" },
        compareTo := { parameterIndexes := [0] } }
    parameters := [.int 5] }

/-- First concrete parent row for the merge-engine witnesses. -/
def exParentRow1 : DataDriver.Row :=
  [("id", .scalar "1"), ("title", .scalar "A")]

/-- Second concrete parent row for the merge-engine witnesses; it has no
matching children. -/
def exParentRow2 : DataDriver.Row :=
  [("id", .scalar "2"), ("title", .scalar "B")]

/-- Concrete root row stream for the merge-engine witnesses. -/
def exRootRows : List DataDriver.Row := [exParentRow1, exParentRow2]

/-- Concrete nested-many descriptor for the merge-engine witnesses. -/
def exNestedMany : DataDriver.AbstractSqlNestedMany :=
  { aliasName := "comments", internalIdentifierFields := ["id"],
    externalKeyFields := ["article_id"], collection := "comments" }

/-- Concrete sub-query results: two comments for the first article, none
for the second. -/
def exFetch : DataDriver.AbstractSqlNestedMany → DataDriver.Row → List DataDriver.Row :=
  fun _ r =>
    match r with
    | ("id", DataDriver.RowVal.scalar "1") :: _ =>
        [[("body", .scalar "hi")], [("body", .scalar "yo")]]
    | _ => []

namespace RunAstM

/-- Embedding of the one-to-many batch loop of `runAst`
(src/unnamed/part_007 lines 78-103).  `fetch offset` stands for
`runAst(merge(nestedNode, {query: {limit: size, offset}}))`, which returns
the next batch of child items or null; `mergeFn` stands for
`mergeWithParentItems` (imported from a module that is not in the source
tree, hence kept abstract).  The loop merges every non-null batch into the
parent items, and keeps going while the batch was non-null and not shorter
than the batch size; `fuel` bounds the recursion for totality and the
theorems below show the loop finishes within any sufficient fuel.  The
result carries the final items, the fetched offsets in order, and whether
the loop exited by its own stopping condition. -/
def o2mBatchLoop {α β : Type} (size : Nat) (fetch : Nat → Option (List β))
    (mergeFn : List β → α → α) : Nat → Nat → α → α × List Nat × Bool
  | 0, _, items => (items, [], false)
  | fuel + 1, batchCount, items =>
    let offset := batchCount * size
    match fetch offset with
    | none => (items, [offset], true)
    | some batch =>
      let items' := mergeFn batch items
      if batch.length < size then (items', [offset], true)
      else
        let rest := o2mBatchLoop size fetch mergeFn fuel (batchCount + 1) items'
        (rest.1, offset :: rest.2.1, rest.2.2)

/-- Folding the fetched batches of the given batch indexes into the items,
in order; a null batch merges nothing. -/
def mergeBatches {α β : Type} (size : Nat) (fetch : Nat → Option (List β))
    (mergeFn : List β → α → α) (idxs : List Nat) (items : α) : α :=
  idxs.foldl
    (fun acc j =>
      match fetch (j * size) with
      | some b => mergeFn b acc
      | none => acc)
    items

end RunAstM

/-- Concrete child list for the C10 witness. -/
def exChildren : List Nat := [10, 11, 12]

/-- Concrete paged fetch over `exChildren` with batch size 2. -/
def exChildFetch : Nat → Option (List Nat) :=
  fun offset => some ((exChildren.drop offset).take 2)

/-- Concrete merge function for the C10 witness. -/
def exMergeFn : List Nat → List Nat → List Nat :=
  fun batch items => items ++ batch

/-- A concrete many-to-one relation: `articles.author` references
`users.id`. -/
def exRelM2O : LegacySql.Relation :=
  { many_collection := "articles", many_field := "author",
    one_collection := "users", one_field := "written", one_primary := "id" }

/-- A concrete one-to-many relation: `comments.article_id` references
`articles.id`, exposed on the one side as `articles.comments`. -/
def exRelO2M : LegacySql.Relation :=
  { many_collection := "comments", many_field := "article_id",
    one_collection := "articles", one_field := "comments", one_primary := "id" }

/-- A filter on a relational path, `{author: {name: {_eq: 'rijk'}}}`. -/
def exFilterJoin : LegacySql.Filter :=
  .node [.cond "author" ["name"] "_eq" "rijk"]

/-- A filter on a root column, `{title: {_eq: 'A'}}` — no join needed. -/
def exFilterNoJoin : LegacySql.Filter :=
  .node [.cond "title" [] "_eq" "A"]

/-- The join clause compiling `exFilterJoin` over `exRelM2O` emits first. -/
def exJoin : LegacySql.JoinClause :=
  { joinAlias := "nanoid0", table := "users",
    onLeft := "articles.author", onRight := "nanoid0.id" }

/-- C1: for every compiled filter, the emitted where-tree carries only a
parameter index in its `compareTo` (never a literal), and the condition's
literal values are exactly the entries of the returned parameter array. -/
theorem convertFilter_no_inline_values (f : DataSql.AbstractQueryFilterNode)
    (collection : String) (i : Nat) (res : DataSql.ConvertedFilter)
    (h : DataSql.convertFilter f collection i = .ok res) :
    (∃ target op vs neg,
        f = .condition target op (.value vs) neg ∧ res.parameters = vs) ∧
    res.whereClause.compareTo.parameterIndexes = [i] := by
  cases f with
  | logical operator childNodes => simp [DataSql.convertFilter] at h
  | condition target operation compareTo negate =>
      cases target with
      | primitive field =>
          cases compareTo with
          | value values =>
              by_cases hop : operation = "intersects" ∨ operation = "intersects_bounding_box"
              · simp [DataSql.convertFilter, hop] at h
              · simp only [DataSql.convertFilter, if_neg hop] at h
                cases h
                exact ⟨⟨.primitive field, operation, values, negate, rfl, rfl⟩, rfl⟩
          | nestedQuery => simp [DataSql.convertFilter] at h
      | fn fname field => simp [DataSql.convertFilter] at h

/-- Witness for C1 at a concrete equality condition on `articles.id`. -/
theorem convertFilter_no_inline_values_witness :
    DataSql.convertFilter exIdFilter "articles" 0 = .ok exIdConverted ∧
    ((∃ target op vs neg,
        exIdFilter = .condition target op (.value vs) neg ∧
          exIdConverted.parameters = vs) ∧
      exIdConverted.whereClause.compareTo.parameterIndexes = [0]) :=
  ⟨rfl, convertFilter_no_inline_values exIdFilter "articles" 0 exIdConverted rfl⟩

/-- C4: on a non-primitive target, a non-value `compareTo`, an intersects
operator, or an unsupported logical combinator, `convertFilter` raises the
error synchronously, independently of the parameter-index position — no
parameter is allocated and no partial statement is returned. -/
theorem convertFilter_unsupported_errors (f : DataSql.AbstractQueryFilterNode)
    (collection : String) (h : DataSql.unsupportedFilter f = true) :
    ∃ msg, ∀ j : Nat, DataSql.convertFilter f collection j = .error msg := by
  cases f with
  | logical operator childNodes =>
      exact ⟨_, fun j => rfl⟩
  | condition target operation compareTo negate =>
      cases target with
      | primitive field =>
          cases compareTo with
          | value values =>
              simp only [DataSql.unsupportedFilter, Bool.or_eq_true, beq_iff_eq] at h
              have hop : operation = "intersects" ∨ operation = "intersects_bounding_box" := by
                rcases h with ((h1 | h2) | h3) | h4
                · cases h1
                · cases h2
                · exact Or.inl h3
                · exact Or.inr h4
              exact ⟨"The intersects operators are not yet supported.",
                fun j => by simp [DataSql.convertFilter, hop]⟩
          | nestedQuery => exact ⟨_, fun j => rfl⟩
      | fn fname field => exact ⟨_, fun j => rfl⟩

/-- Witness for C4 at a concrete intersects condition. -/
theorem convertFilter_unsupported_errors_witness :
    DataSql.unsupportedFilter
        (.condition (.primitive "geom") "intersects" (.value []) false) = true ∧
    ∃ msg, ∀ j : Nat,
      DataSql.convertFilter
          (.condition (.primitive "geom") "intersects" (.value []) false) "shapes" j =
        .error msg :=
  ⟨by decide, convertFilter_unsupported_errors _ "shapes" (by decide)⟩

/-- C3 counterexample: on the early-close exit path — the consumer cancels
the cursor before end-of-data — the pool connection is not released, because
`getDataFromSource` registers release handlers only for the `'end'` and
`'error'` events and an early destroy emits neither. -/
theorem connectionReleased_earlyClose_false :
    PostgresDriver.connectionReleased .earlyClose = false := rfl

/-- C3 amended: the connection acquired by `getDataFromSource` is released
when the cursor reaches end-of-data and when it raises an error, but not
when the consumer closes the cursor early. -/
theorem connectionReleased_end_and_error :
    PostgresDriver.connectionReleased .endOfData = true ∧
    PostgresDriver.connectionReleased .queryError = true ∧
    PostgresDriver.connectionReleased .earlyClose = false := by
  exact ⟨rfl, rfl, rfl⟩

theorem lookup_eq_none_of_not_mem_keys (k : String) :
    ∀ l : List (String × DataDriver.RowVal), k ∉ l.map Prod.fst → l.lookup k = none := by
  intro l
  induction l with
  | nil => intro _; rfl
  | cons a t ih =>
      intro h
      simp only [List.map_cons, List.mem_cons] at h
      push_neg at h
      have hne : (k == a.1) = false := beq_eq_false_iff_ne.mpr h.1
      simp [List.lookup, hne, ih h.2]

theorem lookup_append_of_fresh (k : String) (l₁ l₂ : List (String × DataDriver.RowVal))
    (h : k ∉ l₁.map Prod.fst) : (l₁ ++ l₂).lookup k = l₂.lookup k := by
  induction l₁ with
  | nil => rfl
  | cons a t ih =>
      simp only [List.map_cons, List.mem_cons] at h
      push_neg at h
      have hne : (k == a.1) = false := beq_eq_false_iff_ne.mpr h.1
      simp [List.lookup, hne, ih h.2]

theorem lookup_nested_aliases
    (fetch : DataDriver.AbstractSqlNestedMany → DataDriver.Row → List DataDriver.Row)
    (r : DataDriver.Row) (d : DataDriver.AbstractSqlNestedMany) :
    ∀ ds : List DataDriver.AbstractSqlNestedMany, d ∈ ds →
      (ds.map DataDriver.AbstractSqlNestedMany.aliasName).Nodup →
      (ds.map fun d' => (d'.aliasName, DataDriver.RowVal.seq (fetch d' r))).lookup d.aliasName =
        some (DataDriver.RowVal.seq (fetch d r)) := by
  intro ds
  induction ds with
  | nil => intro h; cases h
  | cons d₀ t ih =>
      intro hmem hnodup
      simp only [List.map_cons, List.nodup_cons] at hnodup
      rcases List.mem_cons.mp hmem with rfl | hmem'
      · simp [List.lookup]
      · have hne : (d.aliasName == d₀.aliasName) = false := by
          refine beq_eq_false_iff_ne.mpr fun hcontra => hnodup.1 ?_
          exact hcontra ▸ List.mem_map_of_mem DataDriver.AbstractSqlNestedMany.aliasName hmem'
        simp [List.lookup, hne, ih hmem' hnodup.2]

theorem zip_map_self_fst {α β : Type} (f : α → β) :
    ∀ (l : List α) (p : β × α), p ∈ (l.map f).zip l → p.1 = f p.2 := by
  intro l
  induction l with
  | nil => intro p hp; simp at hp
  | cons a t ih =>
      intro p hp
      simp only [List.map_cons, List.zip_cons_cons, List.mem_cons] at hp
      rcases hp with rfl | hp
      · rfl
      · exact ih p hp

/-- C2: for every root row stream and every list of nested-many relation
descriptors, the merge engine's output has exactly as many rows as the
input, and the parent rows appear in input order — the row zipped with the
i-th input row is that very row extended with the nested fields. -/
theorem mergeWithRoot_row_count_and_order (rows : List DataDriver.Row)
    (ds : List DataDriver.AbstractSqlNestedMany)
    (fetch : DataDriver.AbstractSqlNestedMany → DataDriver.Row → List DataDriver.Row) :
    (DataDriver.makeSubQueriesAndMergeWithRoot rows ds fetch).length = rows.length ∧
    ∀ p ∈ (DataDriver.makeSubQueriesAndMergeWithRoot rows ds fetch).zip rows,
      p.1.take p.2.length = p.2 := by
  constructor
  · simp [DataDriver.makeSubQueriesAndMergeWithRoot]
  · intro p hp
    have h1 : p.1 = DataDriver.attachNested ds fetch p.2 :=
      zip_map_self_fst (DataDriver.attachNested ds fetch) rows p hp
    rw [h1, DataDriver.attachNested, List.take_left]

/-- Witness for C2 on a two-row root stream with one nested relation. -/
theorem mergeWithRoot_row_count_and_order_witness :
    (DataDriver.makeSubQueriesAndMergeWithRoot exRootRows [exNestedMany] exFetch).length =
      exRootRows.length ∧
    (DataDriver.attachNested [exNestedMany] exFetch exParentRow1).take exParentRow1.length =
      exParentRow1 :=
  ⟨(mergeWithRoot_row_count_and_order exRootRows [exNestedMany] exFetch).1,
    (mergeWithRoot_row_count_and_order exRootRows [exNestedMany] exFetch).2
      (DataDriver.attachNested [exNestedMany] exFetch exParentRow1, exParentRow1)
      (List.mem_cons_self _ _)⟩

/-- C6: a parent row whose nested-many relation matches zero child rows is
emitted with the relation's alias field bound to an empty sequence — the
field is present (lookup succeeds) and holds `RowVal.seq []`, not null. -/
theorem mergeWithRoot_zero_children_empty_seq (rows : List DataDriver.Row)
    (ds : List DataDriver.AbstractSqlNestedMany)
    (fetch : DataDriver.AbstractSqlNestedMany → DataDriver.Row → List DataDriver.Row)
    (d : DataDriver.AbstractSqlNestedMany) (r : DataDriver.Row)
    (hd : d ∈ ds)
    (hnodup : (ds.map DataDriver.AbstractSqlNestedMany.aliasName).Nodup)
    (hr : r ∈ rows)
    (hfresh : d.aliasName ∉ r.map Prod.fst)
    (hzero : fetch d r = []) :
    DataDriver.attachNested ds fetch r ∈
        DataDriver.makeSubQueriesAndMergeWithRoot rows ds fetch ∧
    (DataDriver.attachNested ds fetch r).lookup d.aliasName =
      some (DataDriver.RowVal.seq []) := by
  refine ⟨List.mem_map_of_mem _ hr, ?_⟩
  rw [DataDriver.attachNested, lookup_append_of_fresh _ _ _ hfresh,
    lookup_nested_aliases fetch r d ds hd hnodup, hzero]

/-- Witness for C6: the second article has no comments and comes out with
`comments` bound to the empty sequence. -/
theorem mergeWithRoot_zero_children_empty_seq_witness :
    DataDriver.attachNested [exNestedMany] exFetch exParentRow2 ∈
        DataDriver.makeSubQueriesAndMergeWithRoot exRootRows [exNestedMany] exFetch ∧
    (DataDriver.attachNested [exNestedMany] exFetch exParentRow2).lookup
        exNestedMany.aliasName = some (DataDriver.RowVal.seq []) :=
  mergeWithRoot_zero_children_empty_seq exRootRows [exNestedMany] exFetch
    exNestedMany exParentRow2 (List.mem_cons_self _ _) (by simp [exNestedMany])
    (by simp [exRootRows]) (by simp [exNestedMany, exParentRow1, exParentRow2]) rfl

/-- C9: when the compiled abstract query carries no nested-many relation
descriptors, the driver's `query` returns the root expanded row stream
itself and never invokes the merge engine. -/
theorem query_no_nested_returns_root
    (nm : List DataDriver.AbstractSqlNestedMany) (rows : List DataDriver.Row)
    (fetch : DataDriver.AbstractSqlNestedMany → DataDriver.Row → List DataDriver.Row)
    (h : nm = []) :
    DataDriver.query nm rows fetch = { rows := rows, mergeInvoked := false } := by
  subst h; rfl

/-- Witness for C9 on the concrete two-row root stream. -/
theorem query_no_nested_returns_root_witness :
    DataDriver.query [] exRootRows exFetch =
      { rows := exRootRows, mergeInvoked := false } :=
  query_no_nested_returns_root [] exRootRows exFetch rfl

/-- C5: an `Or` combinator with an empty child list compiles to no
predicate at all — the where tree evaluates to "no restriction", every row
passes, and the rendered where text is empty (knex drops empty groupings);
in particular it is never an always-false predicate. -/
theorem emptyOr_compiles_to_no_restriction (rels : List LegacySql.Relation)
    (collection : String) (n : Nat) (ev evIn : String → String → String → Bool) :
    LegacySql.evalWhere ev evIn
        (LegacySql.applyFilter rels collection (.node [.logical true []]) n).1.whereClauses =
      none ∧
    LegacySql.rowPasses ev evIn
        (LegacySql.applyFilter rels collection (.node [.logical true []]) n).1.whereClauses =
      true ∧
    LegacySql.renderClauses
        (LegacySql.applyFilter rels collection (.node [.logical true []]) n).1.whereClauses =
      "" :=
  ⟨rfl, rfl, rfl⟩

theorem followJoin_shape (rels : List LegacySql.Relation) :
    ∀ (path : List String) (pc : String) (pa : Option String)
      (st : LegacySql.JoinState),
      (∀ j ∈ st.joins, LegacySql.m2oJoinShape rels j) →
      ∀ j ∈ (LegacySql.followRelationJoin rels path pc pa st).joins,
        LegacySql.m2oJoinShape rels j := by
  intro path
  induction path with
  | nil => intro pc pa st h j hj; exact h j hj
  | cons p0 rest ih =>
      intro pc pa st h j hj
      simp only [LegacySql.followRelationJoin] at hj
      cases hfind : LegacySql.findM2O rels pc p0 with
      | none => rw [hfind] at hj; exact h j hj
      | some rel =>
          rw [hfind] at hj
          refine ih rel.one_collection _ _ ?_ j hj
          intro j' hj'
          rcases List.mem_append.mp hj' with h1 | h2
          · exact h j' h1
          · rcases List.mem_singleton.mp h2 with rfl
            exact ⟨rel, List.mem_of_find?_eq_some hfind, pa.getD pc, rfl, rfl, rfl⟩

mutual
theorem addJoinsFilter_shape (rels : List LegacySql.Relation) (collection : String) :
    ∀ (f : LegacySql.Filter) (st : LegacySql.JoinState),
      (∀ j ∈ st.joins, LegacySql.m2oJoinShape rels j) →
      ∀ j ∈ (LegacySql.addJoinsFilter rels collection f st).joins,
        LegacySql.m2oJoinShape rels j
  | .node entries, st, h => by
      simp only [LegacySql.addJoinsFilter]
      exact addJoinsEntries_shape rels collection entries st h

theorem addJoinsEntries_shape (rels : List LegacySql.Relation) (collection : String) :
    ∀ (es : List LegacySql.FilterEntry) (st : LegacySql.JoinState),
      (∀ j ∈ st.joins, LegacySql.m2oJoinShape rels j) →
      ∀ j ∈ (LegacySql.addJoinsEntries rels collection es st).joins,
        LegacySql.m2oJoinShape rels j
  | [], st, h => by simpa [LegacySql.addJoinsEntries] using h
  | e :: rest, st, h => by
      simp only [LegacySql.addJoinsEntries]
      exact addJoinsEntries_shape rels collection rest _
        (addJoinsEntry_shape rels collection e st h)

theorem addJoinsEntry_shape (rels : List LegacySql.Relation) (collection : String) :
    ∀ (e : LegacySql.FilterEntry) (st : LegacySql.JoinState),
      (∀ j ∈ st.joins, LegacySql.m2oJoinShape rels j) →
      ∀ j ∈ (LegacySql.addJoinsEntry rels collection e st).joins,
        LegacySql.m2oJoinShape rels j
  | .logical isOr children, st, h => by
      simp only [LegacySql.addJoinsEntry]
      split
      · exact h
      · exact addJoinsChildren_shape rels collection children st h
  | .cond p0 rest op v, st, h => by
      simp only [LegacySql.addJoinsEntry]
      split
      · exact followJoin_shape rels (p0 :: rest) collection none st h
      · exact h

theorem addJoinsChildren_shape (rels : List LegacySql.Relation) (collection : String) :
    ∀ (cs : List LegacySql.Filter) (st : LegacySql.JoinState),
      (∀ j ∈ st.joins, LegacySql.m2oJoinShape rels j) →
      ∀ j ∈ (LegacySql.addJoinsChildren rels collection cs st).joins,
        LegacySql.m2oJoinShape rels j
  | [], st, h => by simpa [LegacySql.addJoinsChildren] using h
  | c :: cs, st, h => by
      simp only [LegacySql.addJoinsChildren]
      exact addJoinsChildren_shape rels collection cs _
        (addJoinsFilter_shape rels collection c st h)
end

/-- C7: (a) every join clause the legacy compiler emits has the
many-to-one join shape — the joined table is the one-side collection of a
schema relation, keyed by its foreign-key field and one-side primary key —
so one-to-many relations are never compiled into joins of the root
statement; (b) a filter path whose head matches only a one-to-many relation
compiles to a root statement with no join at all, its restriction being a
single `whereIn` sub-query (carrying the recursively compiled sub-query);
and (c) the driver resolves the compiled nested-many descriptors by
handing the already-produced root row stream to the merge engine, which
issues the sub-queries — strictly after the root statement's rows are
available. -/
theorem o2m_never_joined :
    (∀ (rels : List LegacySql.Relation) (collection : String)
       (f : LegacySql.Filter) (n : Nat),
       ∀ j ∈ (LegacySql.applyFilter rels collection f n).1.joins,
         LegacySql.m2oJoinShape rels j) ∧
    (∀ (rels : List LegacySql.Relation) (collection p0 : String)
       (rest : List String) (op v : String) (n : Nat) (rel : LegacySql.Relation),
       rest ≠ [] →
       LegacySql.findM2O rels collection p0 = none →
       LegacySql.findO2M rels collection p0 = some rel →
       (LegacySql.applyFilter rels collection (.node [.cond p0 rest op v]) n).1.joins =
           [] ∧
       ∃ subJoins subClauses,
         (LegacySql.applyFilter rels collection (.node [.cond p0 rest op v]) n).1.whereClauses =
           [.whereInSub false
             (collection ++ "." ++
               (if rel.one_primary.isEmpty then "id" else rel.one_primary))
             rel.many_field rel.many_collection subJoins subClauses]) ∧
    (∀ (nm : List DataDriver.AbstractSqlNestedMany) (rows : List DataDriver.Row)
       (fetch : DataDriver.AbstractSqlNestedMany → DataDriver.Row → List DataDriver.Row),
       nm ≠ [] →
       DataDriver.query nm rows fetch =
         { rows := DataDriver.makeSubQueriesAndMergeWithRoot rows nm fetch
           mergeInvoked := true }) := by
  refine ⟨?_, ?_, ?_⟩
  · intro rels collection f n j hj
    simp only [LegacySql.applyFilter] at hj
    exact addJoinsFilter_shape rels collection f _ (by simp) j hj
  · intro rels collection p0 rest op v n rel hrest hm2o ho2m
    obtain ⟨r0, rest', rfl⟩ : ∃ r0 rest', rest = r0 :: rest' := by
      cases rest with
      | nil => exact absurd rfl hrest
      | cons a b => exact ⟨a, b, rfl⟩
    constructor
    · simp [LegacySql.applyFilter, LegacySql.addJoinsFilter, LegacySql.addJoinsEntries,
        LegacySql.addJoinsEntry, LegacySql.followRelationJoin, hm2o]
    · simp only [LegacySql.applyFilter, LegacySql.addJoinsFilter,
        LegacySql.addJoinsEntries, LegacySql.addJoinsEntry,
        LegacySql.followRelationJoin, hm2o, LegacySql.addWhereFilter,
        LegacySql.addWhereEntries, LegacySql.addWhereEntry, LegacySql.condClause,
        ho2m, List.append_nil, List.length_cons, Nat.succ_pos, gt_iff_lt, if_true,
        Nat.zero_lt_succ, if_pos]
      exact ⟨_, _, rfl⟩
  · intro nm rows fetch h
    simp [DataDriver.query, List.length_eq_zero, h]

/-- Witness for C7: a concrete m2o join, a concrete o2m sub-query
compilation, and a concrete merged driver run. -/
theorem o2m_never_joined_witness :
    LegacySql.m2oJoinShape [exRelM2O] exJoin ∧
    ((LegacySql.applyFilter [exRelO2M] "articles"
          (.node [.cond "comments" ["body"] "_eq" "hi"]) 0).1.joins = [] ∧
      ∃ subJoins subClauses,
        (LegacySql.applyFilter [exRelO2M] "articles"
            (.node [.cond "comments" ["body"] "_eq" "hi"]) 0).1.whereClauses =
          [.whereInSub false "articles.id" "article_id" "comments"
            subJoins subClauses]) ∧
    DataDriver.query [exNestedMany] exRootRows exFetch =
      { rows := DataDriver.makeSubQueriesAndMergeWithRoot exRootRows [exNestedMany] exFetch
        mergeInvoked := true } :=
  ⟨o2m_never_joined.1 [exRelM2O] "articles" exFilterJoin 0 exJoin (by decide),
    o2m_never_joined.2.1 [exRelO2M] "articles" "comments" ["body"] "_eq" "hi" 0
      exRelO2M (by decide) rfl rfl,
    o2m_never_joined.2.2 [exNestedMany] exRootRows exFetch (List.cons_ne_nil _ _)⟩

/-- C8 counterexample: compiling the same query graph twice does not render
to identical statement text — the join alias is drawn from `nanoid` afresh
on each compilation (part_009 line 99) and appears literally in the
rendered join and where text. -/
theorem compileTwice_text_differs :
    LegacySql.renderStatement
        (LegacySql.compileTwice [exRelM2O] "articles" exFilterJoin).1 ≠
      LegacySql.renderStatement
        (LegacySql.compileTwice [exRelM2O] "articles" exFilterJoin).2 := by
  decide

theorem clausesParams_append (l₁ l₂ : List LegacySql.WhereClause) :
    LegacySql.clausesParams (l₁ ++ l₂) =
      LegacySql.clausesParams l₁ ++ LegacySql.clausesParams l₂ := by
  induction l₁ with
  | nil => rfl
  | cons c rest ih => simp [LegacySql.clausesParams, ih]

theorem condParams_indep (rels : List LegacySql.Relation) :
    ∀ (path : List String) (p0 collection : String)
      (am am' : List (List String × String)) (o o' : Bool) (op v : String) (n m : Nat),
      LegacySql.clausesParams (LegacySql.condClause rels am collection o p0 path op v n).1 =
        LegacySql.clausesParams (LegacySql.condClause rels am' collection o' p0 path op v m).1 := by
  intro path
  induction path with
  | nil => intro p0 collection am am' o o' op v n m; rfl
  | cons r0 rest ih =>
      intro p0 collection am am' o o' op v n m
      simp only [LegacySql.condClause]
      cases ho : LegacySql.findO2M rels collection p0 with
      | none => rfl
      | some rel =>
          simp only [LegacySql.clausesParams, LegacySql.clauseParams, List.append_nil]
          exact ih r0 rel.many_collection _ _ false false op v _ _

mutual
theorem whereParams_indep_filter (rels : List LegacySql.Relation) :
    ∀ (f : LegacySql.Filter) (collection : String)
      (am am' : List (List String × String)) (o o' : Bool) (n m : Nat),
      LegacySql.clausesParams (LegacySql.addWhereFilter rels am collection o f n).1 =
        LegacySql.clausesParams (LegacySql.addWhereFilter rels am' collection o' f m).1
  | .node entries, collection, am, am', o, o', n, m => by
      simp only [LegacySql.addWhereFilter]
      exact whereParams_indep_entries rels entries collection am am' o o' n m

theorem whereParams_indep_entries (rels : List LegacySql.Relation) :
    ∀ (es : List LegacySql.FilterEntry) (collection : String)
      (am am' : List (List String × String)) (o o' : Bool) (n m : Nat),
      LegacySql.clausesParams (LegacySql.addWhereEntries rels am collection o es n).1 =
        LegacySql.clausesParams (LegacySql.addWhereEntries rels am' collection o' es m).1
  | [], _, _, _, _, _, _, _ => rfl
  | e :: rest, collection, am, am', o, o', n, m => by
      simp only [LegacySql.addWhereEntries, clausesParams_append]
      rw [whereParams_indep_entry rels e collection am am' o o' n m,
        whereParams_indep_entries rels rest collection am am' o o'
          (LegacySql.addWhereEntry rels am collection o e n).2
          (LegacySql.addWhereEntry rels am' collection o' e m).2]

theorem whereParams_indep_entry (rels : List LegacySql.Relation) :
    ∀ (e : LegacySql.FilterEntry) (collection : String)
      (am am' : List (List String × String)) (o o' : Bool) (n m : Nat),
      LegacySql.clausesParams (LegacySql.addWhereEntry rels am collection o e n).1 =
        LegacySql.clausesParams (LegacySql.addWhereEntry rels am' collection o' e m).1
  | .logical isOrKey children, collection, am, am', o, o', n, m => by
      simp only [LegacySql.addWhereEntry]
      cases hc : isOrKey && LegacySql.hasEmptyChild children
      · simp only [Bool.false_eq_true, if_false, LegacySql.clausesParams,
          LegacySql.clauseParams, List.append_nil]
        exact whereParams_indep_children rels children collection am am' isOrKey isOrKey n m
      · rfl
  | .cond p0 rest op v, collection, am, am', o, o', n, m => by
      simp only [LegacySql.addWhereEntry]
      exact condParams_indep rels rest p0 collection am am' o o' op v n m

theorem whereParams_indep_children (rels : List LegacySql.Relation) :
    ∀ (cs : List LegacySql.Filter) (collection : String)
      (am am' : List (List String × String)) (o o' : Bool) (n m : Nat),
      LegacySql.clausesParams (LegacySql.addWhereChildren rels am collection o cs n).1 =
        LegacySql.clausesParams (LegacySql.addWhereChildren rels am' collection o' cs m).1
  | [], _, _, _, _, _, _, _ => rfl
  | c :: cs, collection, am, am', o, o', n, m => by
      simp only [LegacySql.addWhereChildren, clausesParams_append]
      rw [whereParams_indep_filter rels c collection am am' o o' n m,
        whereParams_indep_children rels cs collection am am' o o'
          (LegacySql.addWhereFilter rels am collection o c n).2
          (LegacySql.addWhereFilter rels am' collection o' c m).2]
end

theorem followJoin_decomp (rels : List LegacySql.Relation) :
    ∀ (path : List String) (pc : String) (pa : Option String)
      (st : LegacySql.JoinState),
      ∃ Δ, (LegacySql.followRelationJoin rels path pc pa st).joins = st.joins ++ Δ ∧
        Δ.length = LegacySql.followCount rels path pc ∧
        (Δ = [] → LegacySql.followRelationJoin rels path pc pa st = st) := by
  intro path
  induction path with
  | nil =>
      intro pc pa st
      exact ⟨[], by simp [LegacySql.followRelationJoin],
        by simp [LegacySql.followCount], fun _ => rfl⟩
  | cons p0 rest ih =>
      intro pc pa st
      simp only [LegacySql.followRelationJoin, LegacySql.followCount]
      cases hfind : LegacySql.findM2O rels pc p0 with
      | none => exact ⟨[], by simp, by simp, fun _ => rfl⟩
      | some rel =>
          obtain ⟨Δ, hj, hlen, -⟩ := ih rel.one_collection (some (LegacySql.nanoid st.counter))
            { joins := st.joins ++
                [{ joinAlias := LegacySql.nanoid st.counter, table := rel.one_collection,
                   onLeft := (pa.getD pc) ++ "." ++ rel.many_field,
                   onRight := LegacySql.nanoid st.counter ++ "." ++ rel.one_primary }]
              aliasMap := (p0 :: rest, LegacySql.nanoid st.counter) :: st.aliasMap
              counter := st.counter + 1 }
          refine ⟨{ joinAlias := LegacySql.nanoid st.counter, table := rel.one_collection,
                    onLeft := (pa.getD pc) ++ "." ++ rel.many_field,
                    onRight := LegacySql.nanoid st.counter ++ "." ++ rel.one_primary } :: Δ,
            ?_, ?_, ?_⟩
          · rw [hj]; simp
          · simp [hlen, Nat.add_comm]
          · intro h; exact absurd h (List.cons_ne_nil _ _)

mutual
theorem addJoinsFilter_decomp (rels : List LegacySql.Relation) (collection : String) :
    ∀ (f : LegacySql.Filter) (st : LegacySql.JoinState),
      ∃ Δ, (LegacySql.addJoinsFilter rels collection f st).joins = st.joins ++ Δ ∧
        Δ.length = LegacySql.extraJoinsF rels collection f ∧
        (Δ = [] → LegacySql.addJoinsFilter rels collection f st = st)
  | .node entries, st => by
      simp only [LegacySql.addJoinsFilter, LegacySql.extraJoinsF]
      exact addJoinsEntries_decomp rels collection entries st

theorem addJoinsEntries_decomp (rels : List LegacySql.Relation) (collection : String) :
    ∀ (es : List LegacySql.FilterEntry) (st : LegacySql.JoinState),
      ∃ Δ, (LegacySql.addJoinsEntries rels collection es st).joins = st.joins ++ Δ ∧
        Δ.length = LegacySql.extraJoinsEntries rels collection es ∧
        (Δ = [] → LegacySql.addJoinsEntries rels collection es st = st)
  | [], st =>
      ⟨[], by simp [LegacySql.addJoinsEntries],
        by simp [LegacySql.extraJoinsEntries], fun _ => rfl⟩
  | e :: rest, st => by
      simp only [LegacySql.addJoinsEntries, LegacySql.extraJoinsEntries]
      obtain ⟨Δ₁, h₁, l₁, n₁⟩ := addJoinsEntry_decomp rels collection e st
      obtain ⟨Δ₂, h₂, l₂, n₂⟩ :=
        addJoinsEntries_decomp rels collection rest (LegacySql.addJoinsEntry rels collection e st)
      refine ⟨Δ₁ ++ Δ₂, ?_, ?_, ?_⟩
      · rw [h₂, h₁, List.append_assoc]
      · rw [List.length_append, l₁, l₂]
      · intro h
        obtain ⟨e₁, e₂⟩ := List.append_eq_nil.mp h
        have n₂' := n₂ e₂
        rw [n₁ e₁] at n₂' ⊢
        exact n₂'

theorem addJoinsEntry_decomp (rels : List LegacySql.Relation) (collection : String) :
    ∀ (e : LegacySql.FilterEntry) (st : LegacySql.JoinState),
      ∃ Δ, (LegacySql.addJoinsEntry rels collection e st).joins = st.joins ++ Δ ∧
        Δ.length = LegacySql.extraJoinsEntry rels collection e ∧
        (Δ = [] → LegacySql.addJoinsEntry rels collection e st = st)
  | .logical isOr children, st => by
      simp only [LegacySql.addJoinsEntry, LegacySql.extraJoinsEntry]
      cases hc : isOr && LegacySql.hasEmptyChild children
      · simp only [Bool.false_eq_true, if_false]
        exact addJoinsChildren_decomp rels collection children st
      · exact ⟨[], by simp, by simp, fun _ => by simp⟩
  | .cond p0 rest op v, st => by
      simp only [LegacySql.addJoinsEntry, LegacySql.extraJoinsEntry]
      by_cases hlen : rest.length > 0
      · simp only [if_pos hlen]
        exact followJoin_decomp rels (p0 :: rest) collection none st
      · simp only [if_neg hlen]
        exact ⟨[], by simp, by simp, by simp⟩

theorem addJoinsChildren_decomp (rels : List LegacySql.Relation) (collection : String) :
    ∀ (cs : List LegacySql.Filter) (st : LegacySql.JoinState),
      ∃ Δ, (LegacySql.addJoinsChildren rels collection cs st).joins = st.joins ++ Δ ∧
        Δ.length = LegacySql.extraJoinsChildren rels collection cs ∧
        (Δ = [] → LegacySql.addJoinsChildren rels collection cs st = st)
  | [], st =>
      ⟨[], by simp [LegacySql.addJoinsChildren],
        by simp [LegacySql.extraJoinsChildren], fun _ => rfl⟩
  | c :: cs, st => by
      simp only [LegacySql.addJoinsChildren, LegacySql.extraJoinsChildren]
      obtain ⟨Δ₁, h₁, l₁, n₁⟩ := addJoinsFilter_decomp rels collection c st
      obtain ⟨Δ₂, h₂, l₂, n₂⟩ :=
        addJoinsChildren_decomp rels collection cs (LegacySql.addJoinsFilter rels collection c st)
      refine ⟨Δ₁ ++ Δ₂, ?_, ?_, ?_⟩
      · rw [h₂, h₁, List.append_assoc]
      · rw [List.length_append, l₁, l₂]
      · intro h
        obtain ⟨e₁, e₂⟩ := List.append_eq_nil.mp h
        have n₂' := n₂ e₂
        rw [n₁ e₁] at n₂' ⊢
        exact n₂'
end

theorem followJoin_counter (rels : List LegacySql.Relation) :
    ∀ (path : List String) (pc : String) (pa : Option String)
      (st : LegacySql.JoinState),
      (LegacySql.followRelationJoin rels path pc pa st).counter =
        st.counter + LegacySql.followCount rels path pc := by
  intro path
  induction path with
  | nil => intro pc pa st; simp [LegacySql.followRelationJoin, LegacySql.followCount]
  | cons p0 rest ih =>
      intro pc pa st
      simp only [LegacySql.followRelationJoin, LegacySql.followCount]
      cases hfind : LegacySql.findM2O rels pc p0 with
      | none => simp
      | some rel => rw [ih]; simp; omega

mutual
theorem addJoinsFilter_counter (rels : List LegacySql.Relation) (collection : String) :
    ∀ (f : LegacySql.Filter) (st : LegacySql.JoinState),
      (LegacySql.addJoinsFilter rels collection f st).counter =
        st.counter + LegacySql.extraJoinsF rels collection f
  | .node entries, st => by
      simp only [LegacySql.addJoinsFilter, LegacySql.extraJoinsF]
      exact addJoinsEntries_counter rels collection entries st

theorem addJoinsEntries_counter (rels : List LegacySql.Relation) (collection : String) :
    ∀ (es : List LegacySql.FilterEntry) (st : LegacySql.JoinState),
      (LegacySql.addJoinsEntries rels collection es st).counter =
        st.counter + LegacySql.extraJoinsEntries rels collection es
  | [], st => by simp [LegacySql.addJoinsEntries, LegacySql.extraJoinsEntries]
  | e :: rest, st => by
      simp only [LegacySql.addJoinsEntries, LegacySql.extraJoinsEntries]
      rw [addJoinsEntries_counter rels collection rest,
        addJoinsEntry_counter rels collection e st]
      omega

theorem addJoinsEntry_counter (rels : List LegacySql.Relation) (collection : String) :
    ∀ (e : LegacySql.FilterEntry) (st : LegacySql.JoinState),
      (LegacySql.addJoinsEntry rels collection e st).counter =
        st.counter + LegacySql.extraJoinsEntry rels collection e
  | .logical isOr children, st => by
      simp only [LegacySql.addJoinsEntry, LegacySql.extraJoinsEntry]
      cases hc : isOr && LegacySql.hasEmptyChild children
      · simp only [Bool.false_eq_true, if_false]
        exact addJoinsChildren_counter rels collection children st
      · simp
  | .cond p0 rest op v, st => by
      simp only [LegacySql.addJoinsEntry, LegacySql.extraJoinsEntry]
      by_cases hlen : rest.length > 0
      · simp only [if_pos hlen]
        exact followJoin_counter rels (p0 :: rest) collection none st
      · simp [if_neg hlen]

theorem addJoinsChildren_counter (rels : List LegacySql.Relation) (collection : String) :
    ∀ (cs : List LegacySql.Filter) (st : LegacySql.JoinState),
      (LegacySql.addJoinsChildren rels collection cs st).counter =
        st.counter + LegacySql.extraJoinsChildren rels collection cs
  | [], st => by simp [LegacySql.addJoinsChildren, LegacySql.extraJoinsChildren]
  | c :: cs, st => by
      simp only [LegacySql.addJoinsChildren, LegacySql.extraJoinsChildren]
      rw [addJoinsChildren_counter rels collection cs,
        addJoinsFilter_counter rels collection c st]
      omega
end

theorem extraJoinsF_single_cond (rels : List LegacySql.Relation)
    (collection r0 : String) (rest : List String) (op v : String) :
    LegacySql.extraJoinsF rels collection (.node [.cond r0 rest op v]) =
      if rest.length > 0 then LegacySql.followCount rels (r0 :: rest) collection
      else 0 := by
  simp [LegacySql.extraJoinsF, LegacySql.extraJoinsEntries, LegacySql.extraJoinsEntry]

theorem subJoinState_of_followCount_zero (rels : List LegacySql.Relation)
    (collection r0 : String) (rest : List String) (op v : String) (ctr : Nat)
    (hz : (if rest.length > 0 then
        LegacySql.followCount rels (r0 :: rest) collection else 0) = 0) :
    LegacySql.addJoinsFilter rels collection (.node [.cond r0 rest op v])
        { joins := [], aliasMap := [], counter := ctr } =
      { joins := [], aliasMap := [], counter := ctr } := by
  obtain ⟨Δ, hj, hlen, hnil⟩ := addJoinsFilter_decomp rels collection
    (.node [.cond r0 rest op v]) { joins := [], aliasMap := [], counter := ctr }
  refine hnil (List.eq_nil_of_length_eq_zero ?_)
  rw [hlen, extraJoinsF_single_cond, hz]

theorem condClause_counter (rels : List LegacySql.Relation) :
    ∀ (path : List String) (p0 collection : String)
      (am : List (List String × String)) (o : Bool) (op v : String) (ctr : Nat),
      (LegacySql.condClause rels am collection o p0 path op v ctr).2 =
        ctr + LegacySql.condExtra rels collection p0 path := by
  intro path
  induction path with
  | nil => intro p0 collection am o op v ctr; simp [LegacySql.condClause, LegacySql.condExtra]
  | cons r0 rest ih =>
      intro p0 collection am o op v ctr
      cases ho : LegacySql.findO2M rels collection p0 with
      | none => simp [LegacySql.condClause, LegacySql.condExtra, ho]
      | some rel =>
          simp only [LegacySql.condClause, LegacySql.condExtra, ho]
          rw [ih, addJoinsFilter_counter, extraJoinsF_single_cond,
            show ({ joins := [], aliasMap := [], counter := ctr } :
              LegacySql.JoinState).counter = ctr from rfl]
          omega

mutual
theorem addWhereFilter_counter (rels : List LegacySql.Relation) :
    ∀ (f : LegacySql.Filter) (collection : String)
      (am : List (List String × String)) (o : Bool) (ctr : Nat),
      (LegacySql.addWhereFilter rels am collection o f ctr).2 =
        ctr + LegacySql.extraWhereF rels collection f
  | .node entries, collection, am, o, ctr => by
      simp only [LegacySql.addWhereFilter, LegacySql.extraWhereF]
      exact addWhereEntries_counter rels entries collection am o ctr

theorem addWhereEntries_counter (rels : List LegacySql.Relation) :
    ∀ (es : List LegacySql.FilterEntry) (collection : String)
      (am : List (List String × String)) (o : Bool) (ctr : Nat),
      (LegacySql.addWhereEntries rels am collection o es ctr).2 =
        ctr + LegacySql.extraWhereEntries rels collection es
  | [], collection, am, o, ctr => by
      simp [LegacySql.addWhereEntries, LegacySql.extraWhereEntries]
  | e :: rest, collection, am, o, ctr => by
      simp only [LegacySql.addWhereEntries, LegacySql.extraWhereEntries]
      rw [addWhereEntries_counter rels rest collection am o,
        addWhereEntry_counter rels e collection am o ctr]
      omega

theorem addWhereEntry_counter (rels : List LegacySql.Relation) :
    ∀ (e : LegacySql.FilterEntry) (collection : String)
      (am : List (List String × String)) (o : Bool) (ctr : Nat),
      (LegacySql.addWhereEntry rels am collection o e ctr).2 =
        ctr + LegacySql.extraWhereEntry rels collection e
  | .logical isOrKey children, collection, am, o, ctr => by
      simp only [LegacySql.addWhereEntry, LegacySql.extraWhereEntry]
      cases hc : isOrKey && LegacySql.hasEmptyChild children
      · simp only [Bool.false_eq_true, if_false]
        exact addWhereChildren_counter rels children collection am isOrKey ctr
      · simp
  | .cond p0 rest op v, collection, am, o, ctr => by
      simp only [LegacySql.addWhereEntry, LegacySql.extraWhereEntry]
      exact condClause_counter rels rest p0 collection am o op v ctr

theorem addWhereChildren_counter (rels : List LegacySql.Relation) :
    ∀ (cs : List LegacySql.Filter) (collection : String)
      (am : List (List String × String)) (o : Bool) (ctr : Nat),
      (LegacySql.addWhereChildren rels am collection o cs ctr).2 =
        ctr + LegacySql.extraWhereChildren rels collection cs
  | [], collection, am, o, ctr => by
      simp [LegacySql.addWhereChildren, LegacySql.extraWhereChildren]
  | c :: cs, collection, am, o, ctr => by
      simp only [LegacySql.addWhereChildren, LegacySql.extraWhereChildren]
      rw [addWhereChildren_counter rels cs collection am o,
        addWhereFilter_counter rels c collection am o ctr]
      omega
end

theorem condClause_eq_of_extra_zero (rels : List LegacySql.Relation) :
    ∀ (path : List String) (p0 collection : String),
      LegacySql.condExtra rels collection p0 path = 0 →
      ∀ (am : List (List String × String)) (o : Bool) (op v : String) (n m : Nat),
        (LegacySql.condClause rels am collection o p0 path op v n).1 =
          (LegacySql.condClause rels am collection o p0 path op v m).1 := by
  intro path
  induction path with
  | nil => intro p0 collection _ am o op v n m; rfl
  | cons r0 rest ih =>
      intro p0 collection hz am o op v n m
      cases ho : LegacySql.findO2M rels collection p0 with
      | none => simp [LegacySql.condClause, ho]
      | some rel =>
          simp only [LegacySql.condExtra, ho] at hz
          simp only [LegacySql.condClause, ho]
          have hjz : (if rest.length > 0 then
              LegacySql.followCount rels (r0 :: rest) rel.many_collection else 0) = 0 := by
            omega
          have hcz : LegacySql.condExtra rels rel.many_collection r0 rest = 0 := by omega
          rw [subJoinState_of_followCount_zero rels rel.many_collection r0 rest op v n hjz,
            subJoinState_of_followCount_zero rels rel.many_collection r0 rest op v m hjz,
            ih r0 rel.many_collection hcz [] false op v n m]

mutual
theorem addWhereFilter_eq_of_extra_zero (rels : List LegacySql.Relation) :
    ∀ (f : LegacySql.Filter) (collection : String),
      LegacySql.extraWhereF rels collection f = 0 →
      ∀ (am : List (List String × String)) (o : Bool) (n m : Nat),
        (LegacySql.addWhereFilter rels am collection o f n).1 =
          (LegacySql.addWhereFilter rels am collection o f m).1
  | .node entries, collection, hz, am, o, n, m => by
      simp only [LegacySql.addWhereFilter]
      exact addWhereEntries_eq_of_extra_zero rels entries collection
        (by simpa [LegacySql.extraWhereF] using hz) am o n m

theorem addWhereEntries_eq_of_extra_zero (rels : List LegacySql.Relation) :
    ∀ (es : List LegacySql.FilterEntry) (collection : String),
      LegacySql.extraWhereEntries rels collection es = 0 →
      ∀ (am : List (List String × String)) (o : Bool) (n m : Nat),
        (LegacySql.addWhereEntries rels am collection o es n).1 =
          (LegacySql.addWhereEntries rels am collection o es m).1
  | [], _, _, _, _, _, _ => rfl
  | e :: rest, collection, hz, am, o, n, m => by
      simp only [LegacySql.extraWhereEntries] at hz
      simp only [LegacySql.addWhereEntries]
      rw [addWhereEntry_eq_of_extra_zero rels e collection (by omega) am o n m,
        addWhereEntries_eq_of_extra_zero rels rest collection (by omega) am o
          (LegacySql.addWhereEntry rels am collection o e n).2
          (LegacySql.addWhereEntry rels am collection o e m).2]

theorem addWhereEntry_eq_of_extra_zero (rels : List LegacySql.Relation) :
    ∀ (e : LegacySql.FilterEntry) (collection : String),
      LegacySql.extraWhereEntry rels collection e = 0 →
      ∀ (am : List (List String × String)) (o : Bool) (n m : Nat),
        (LegacySql.addWhereEntry rels am collection o e n).1 =
          (LegacySql.addWhereEntry rels am collection o e m).1
  | .logical isOrKey children, collection, hz, am, o, n, m => by
      simp only [LegacySql.extraWhereEntry] at hz
      simp only [LegacySql.addWhereEntry]
      cases hc : isOrKey && LegacySql.hasEmptyChild children
      · rw [hc] at hz
        simp only [Bool.false_eq_true, if_false] at hz ⊢
        rw [addWhereChildren_eq_of_extra_zero rels children collection hz am isOrKey n m]
      · rfl
  | .cond p0 rest op v, collection, hz, am, o, n, m => by
      simp only [LegacySql.extraWhereEntry] at hz
      simp only [LegacySql.addWhereEntry]
      exact condClause_eq_of_extra_zero rels rest p0 collection hz am o op v n m

theorem addWhereChildren_eq_of_extra_zero (rels : List LegacySql.Relation) :
    ∀ (cs : List LegacySql.Filter) (collection : String),
      LegacySql.extraWhereChildren rels collection cs = 0 →
      ∀ (am : List (List String × String)) (o : Bool) (n m : Nat),
        (LegacySql.addWhereChildren rels am collection o cs n).1 =
          (LegacySql.addWhereChildren rels am collection o cs m).1
  | [], _, _, _, _, _, _ => rfl
  | c :: cs, collection, hz, am, o, n, m => by
      simp only [LegacySql.extraWhereChildren] at hz
      simp only [LegacySql.addWhereChildren]
      rw [addWhereFilter_eq_of_extra_zero rels c collection (by omega) am o n m,
        addWhereChildren_eq_of_extra_zero rels cs collection (by omega) am o
          (LegacySql.addWhereFilter rels am collection o c n).2
          (LegacySql.addWhereFilter rels am collection o c m).2]
end

/-- C8 amended: compiling the same query graph twice always yields
identical bound-parameter lists, including the parameters of recursively
compiled o2m sub-queries; and whenever a compilation finishes with the
nanoid position unchanged — no join alias was drawn at the root nor inside
any o2m sub-query — the rendered statement text of the two compilations is
identical as well.  (Whenever an alias is drawn it appears literally in
the rendered text, making the two renders differ — see the
counterexample.) -/
theorem compile_params_deterministic :
    (∀ (rels : List LegacySql.Relation) (collection : String)
       (f : LegacySql.Filter) (n m : Nat),
       LegacySql.clausesParams (LegacySql.applyFilter rels collection f n).1.whereClauses =
         LegacySql.clausesParams (LegacySql.applyFilter rels collection f m).1.whereClauses) ∧
    (∀ (rels : List LegacySql.Relation) (collection : String)
       (f : LegacySql.Filter) (n m : Nat),
       (LegacySql.applyFilter rels collection f n).2 = n →
       LegacySql.renderStatement (LegacySql.applyFilter rels collection f n).1 =
         LegacySql.renderStatement (LegacySql.applyFilter rels collection f m).1) := by
  constructor
  · intro rels collection f n m
    simp only [LegacySql.applyFilter]
    exact whereParams_indep_filter rels f collection _ _ false false _ _
  · intro rels collection f n m hfix
    have hcnt : (LegacySql.applyFilter rels collection f n).2 =
        n + (LegacySql.extraJoinsF rels collection f +
          LegacySql.extraWhereF rels collection f) := by
      simp only [LegacySql.applyFilter]
      rw [addWhereFilter_counter, addJoinsFilter_counter,
        show ({ joins := [], aliasMap := [], counter := n } :
          LegacySql.JoinState).counter = n from rfl]
      omega
    rw [hcnt] at hfix
    have hjz : LegacySql.extraJoinsF rels collection f = 0 := by omega
    have hwz : LegacySql.extraWhereF rels collection f = 0 := by omega
    obtain ⟨Δn, hΔn, hlenn, hniln⟩ := addJoinsFilter_decomp rels collection f
      { joins := [], aliasMap := [], counter := n }
    obtain ⟨Δm, hΔm, hlenm, hnilm⟩ := addJoinsFilter_decomp rels collection f
      { joins := [], aliasMap := [], counter := m }
    have hstn := hniln (List.eq_nil_of_length_eq_zero (hlenn.trans hjz))
    have hstm := hnilm (List.eq_nil_of_length_eq_zero (hlenm.trans hjz))
    simp only [LegacySql.applyFilter, hstn, hstm]
    rw [addWhereFilter_eq_of_extra_zero rels f collection hwz [] false n m]

/-- Witness for C8 amended: identical parameters for the joined filter at
two nanoid positions, and identical text for a filter that draws no
alias. -/
theorem compile_params_deterministic_witness :
    LegacySql.clausesParams
        (LegacySql.applyFilter [exRelM2O] "articles" exFilterJoin 0).1.whereClauses =
      LegacySql.clausesParams
        (LegacySql.applyFilter [exRelM2O] "articles" exFilterJoin 5).1.whereClauses ∧
    LegacySql.renderStatement (LegacySql.applyFilter [] "articles" exFilterNoJoin 0).1 =
      LegacySql.renderStatement (LegacySql.applyFilter [] "articles" exFilterNoJoin 7).1 :=
  ⟨compile_params_deterministic.1 [exRelM2O] "articles" exFilterJoin 0 5,
    compile_params_deterministic.2 [] "articles" exFilterNoJoin 0 7 (by decide)⟩

theorem o2mBatchLoop_go {α β : Type} (size : Nat) (fetch : Nat → Option (List β))
    (mergeFn : List β → α → α) (k : Nat)
    (hstop : fetch (k * size) = none ∨
      ∃ b, fetch (k * size) = some b ∧ b.length < size) :
    ∀ (fuel c : Nat) (items : α),
      (∀ j, c ≤ j → j < k → ∃ b, fetch (j * size) = some b ∧ size ≤ b.length) →
      c ≤ k → k - c < fuel →
      RunAstM.o2mBatchLoop size fetch mergeFn fuel c items =
        (RunAstM.mergeBatches size fetch mergeFn (List.range' c (k + 1 - c)) items,
         (List.range' c (k + 1 - c)).map (· * size), true) := by
  intro fuel
  induction fuel with
  | zero => intro c items _ _ hfuel; omega
  | succ d ih =>
      intro c items hfull hck hfuel
      by_cases hceq : c = k
      · subst hceq
        have hr : c + 1 - c = 1 := by omega
        rcases hstop with hnone | ⟨b, hb, hblt⟩
        · simp [RunAstM.o2mBatchLoop, hnone, RunAstM.mergeBatches, hr,
            List.range'_one]
        · simp [RunAstM.o2mBatchLoop, hb, hblt, RunAstM.mergeBatches, hr,
            List.range'_one]
      · have hclt : c < k := by omega
        obtain ⟨b, hb, hble⟩ := hfull c (le_refl c) hclt
        have hnotlt : ¬ b.length < size := by omega
        have hrec := ih (c + 1) (mergeFn b items)
          (fun j hj1 hj2 => hfull j (by omega) hj2) (by omega) (by omega)
        have hsub : k + 1 - c = (k + 1 - (c + 1)) + 1 := by omega
        rw [hsub]
        simp only [RunAstM.o2mBatchLoop, hb, if_neg hnotlt, hrec,
          List.range'_succ, RunAstM.mergeBatches, List.foldl_cons, List.map_cons, hb]

/-- C10: the one-to-many merge loop fetches child rows in successive
batches, the i-th fetch at offset `i * RELATIONAL_BATCH_SIZE`; every
non-null batch is merged into the parent items in order; and the loop
terminates exactly at the first fetch that returns null or fewer than
`RELATIONAL_BATCH_SIZE` items — the trace of fetched offsets is precisely
`0, size, …, k*size` where `k` is that first short or null fetch. -/
theorem o2mBatchLoop_spec {α β : Type} (size : Nat) (fetch : Nat → Option (List β))
    (mergeFn : List β → α → α) (k fuel : Nat) (items : α)
    (hfull : ∀ j, j < k → ∃ b, fetch (j * size) = some b ∧ size ≤ b.length)
    (hstop : fetch (k * size) = none ∨
      ∃ b, fetch (k * size) = some b ∧ b.length < size)
    (hfuel : k < fuel) :
    RunAstM.o2mBatchLoop size fetch mergeFn fuel 0 items =
      (RunAstM.mergeBatches size fetch mergeFn (List.range (k + 1)) items,
       (List.range (k + 1)).map (· * size), true) := by
  have h := o2mBatchLoop_go size fetch mergeFn k hstop fuel 0 items
    (fun j _ hj => hfull j hj) (Nat.zero_le k) (by omega)
  rw [h, List.range_eq_range']
  simp

/-- Witness for C10: three children paged with batch size 2 — a full first
batch at offset 0, a short second batch at offset 2, loop ends. -/
theorem o2mBatchLoop_spec_witness :
    RunAstM.o2mBatchLoop 2 exChildFetch exMergeFn 2 0 ([] : List Nat) =
      (RunAstM.mergeBatches 2 exChildFetch exMergeFn (List.range 2) [],
       (List.range 2).map (· * 2), true) :=
  o2mBatchLoop_spec 2 exChildFetch exMergeFn 1 2 []
    (by intro j hj; interval_cases j; exact ⟨[10, 11], rfl, by decide⟩)
    (Or.inr ⟨[12], rfl, by decide⟩) (by decide)
